import Mathlib

/-
Verification development for the protomigrate deprecation analyzer.

The development shallowly embeds the two analysis components of the
repository:

1. the deprecation fact extractor (facts/deprecated.go): the function
   "deprecated" walks each file with ast.Inspect, accumulating comment
   groups in a shared "docs" buffer and bound names in "names", and
   exports one fact per bound name whenever the accumulated doc text
   contains a paragraph starting with the literal marker "Deprecated: ".

2. the usage analyzer (checkDeprecated in the main package): a
   push/pop walk over all files tracking a stack depth counter and the
   innermost enclosing function declaration object "tfn", deciding for
   each selector expression whether to report, with a three-way
   version-gating policy against the knowledge table, and a per-import
   pass "fn2" with a generated-code exemption.

Doc comment text is modelled as the list of characters produced by the
external go/ast CommentGroup.Text rendering.  Resolved objects and
packages are opaque to the analyzer; objects are modelled as naturals
and packages by their import path (the go/types checker interns one
package value per path within a pass, so pointer equality of packages
coincides with path equality).
-/

namespace Protomigrate

/-- Resolved object handle (types.Object); identity supplied by the resolver. -/
abbrev ObjId := Nat

/-- Rendered text of one comment group, as produced by CommentGroup.Text. -/
abbrev DocText := List Char

/-- Splits a text on occurrences of the two-character separator made of two
newline characters, exactly as strings.Split(text, sep) does for this fixed
separator: leftmost, non-overlapping occurrences; the empty text yields one
empty part. -/
def splitParagraphs : List Char → List (List Char)
  | [] => [[]]
  | '\n' :: '\n' :: rest => [] :: splitParagraphs rest
  | c :: rest =>
    match splitParagraphs rest with
    | [] => [[c]]
    | p :: ps => (c :: p) :: ps

/-- The literal deprecation marker, including the single trailing space. -/
def deprecatedMarker : DocText := ("Deprecated: ").data

/-- Scan of the paragraphs of one comment group: the first paragraph that
starts with the marker yields its remainder with every newline replaced by a
space (strings.Replace with a single-character pattern); otherwise none. -/
def extractFromParts : List (List Char) → Option (List Char)
  | [] => none
  | part :: rest =>
    if deprecatedMarker.isPrefixOf part then
      some ((part.drop deprecatedMarker.length).map (fun c => if c = '\n' then ' ' else c))
    else extractFromParts rest

/-- Embedding of extractDeprecatedMessage (facts/deprecated.go, lines 37-53):
walk the comment groups in order, skip nil groups, and return at the first
paragraph of any group that begins with the marker, even when the remainder
after the marker is empty. -/
def extractDeprecatedMessage : List (Option DocText) → List Char
  | [] => []
  | none :: rest => extractDeprecatedMessage rest
  | some text :: rest =>
    match extractFromParts (splitParagraphs text) with
    | some alt => alt
    | none => extractDeprecatedMessage rest

/-- Facts contributed by one doDocs call (facts/deprecated.go, lines 54-64):
none when the extracted message is empty, else one fact per bound name. -/
def newFacts (names : List ObjId) (docs : List (Option DocText)) : List (ObjId × List Char) :=
  let alt := extractDeprecatedMessage docs
  if alt = [] then [] else names.map (fun n => (n, alt))

/-- Embedding of doDocs as it acts on the exported fact collection. -/
def doDocs (facts : List (ObjId × List Char)) (names : List ObjId)
    (docs : List (Option DocText)) : List (ObjId × List Char) :=
  facts ++ newFacts names docs

/-- One struct or interface field group: bound names plus its own doc group. -/
structure Field where
  names : List ObjId
  doc : Option DocText

/-- Go token kind of a GenDecl, restricted to the kinds the walk inspects. -/
inductive Tok where
  | typeTok
  | constTok
  | varTok
  | importTok
deriving DecidableEq

/-- Declaration-level syntax visited by the fact extractor walk.  A function
declaration carries no body here because the walk returns false on FuncDecl
and ast.Inspect therefore never descends into the body.  Nodes on which the
walk switch hits its default case are collapsed into the childless other
constructor, faithful to the walk because the default case returns false. -/
inductive Node where
  | genDecl (tok : Tok) (doc : Option DocText) (specs : List Node)
  | funcDecl (doc : Option DocText) (name : ObjId)
  | typeSpec (doc : Option DocText) (name : ObjId) (ty : Node)
  | valueSpec (doc : Option DocText) (names : List ObjId)
  | structType (fields : List Field)
  | interfaceType (methods : List Field)
  | other

/-- Mutable closure state of the extractor walk: the accumulated comment
group buffer, the names bound by the declaration being processed, and the
facts exported so far. -/
structure ExtState where
  docs : List (Option DocText)
  names : List ObjId
  facts : List (ObjId × List Char)

/-- Facts exported for every field of a struct or interface body, each field
checked against its own doc group in isolation (facts/deprecated.go,
lines 104-113). -/
def fieldsFacts (facts : List (ObjId × List Char)) (fields : List Field) :
    List (ObjId × List Char) :=
  fields.foldl (fun fs fd => doDocs fs fd.names [fd.doc]) facts

/-- The bottom block of the walk closure (facts/deprecated.go, lines 117-124):
when either buffer is empty the state is returned unchanged; otherwise doDocs
runs and both buffers are cleared. -/
def flush (s : ExtState) : ExtState :=
  if s.names = [] ∨ s.docs = [] then s
  else ExtState.mk [] [] (doDocs s.facts s.names s.docs)

/-- Embedding of the ast.Inspect walk of the extractor (facts/deprecated.go,
lines 76-126), threading the closure state left to right through sibling
declarations exactly as the shared mutable variables do. -/
def inspectNodes (s : ExtState) (ns : List Node) : ExtState :=
  match ns with
  | [] => s
  | n :: rest =>
    match n with
    | Node.genDecl tok doc specs =>
      match tok with
      | Tok.importTok => inspectNodes s rest
      | _ =>
        inspectNodes (inspectNodes (ExtState.mk (s.docs ++ [doc]) s.names s.facts) specs) rest
    | Node.funcDecl doc name =>
      inspectNodes (flush (ExtState.mk (s.docs ++ [doc]) [name] s.facts)) rest
    | Node.typeSpec doc name ty =>
      inspectNodes (inspectNodes (flush (ExtState.mk (s.docs ++ [doc]) [name] s.facts)) [ty]) rest
    | Node.valueSpec doc names =>
      inspectNodes (flush (ExtState.mk (s.docs ++ [doc]) names s.facts)) rest
    | Node.structType fields =>
      inspectNodes (ExtState.mk s.docs s.names (fieldsFacts s.facts fields)) rest
    | Node.interfaceType methods =>
      inspectNodes (ExtState.mk s.docs s.names (fieldsFacts s.facts methods)) rest
    | Node.other => inspectNodes s rest
termination_by sizeOf ns
decreasing_by
  all_goals simp_wf
  all_goals first | omega | (cases doc <;> simp <;> omega)

/-- One compilation unit: its leading doc group and its declarations. -/
structure GoFile where
  doc : Option DocText
  decls : List Node

/-- Module-level deprecation fact (facts/deprecated.go, lines 66-72):
the marker rule applied to the concatenated file doc groups. -/
def packageDeprecation (files : List GoFile) : Option (List Char) :=
  let alt := extractDeprecatedMessage (files.map (fun f => f.doc))
  if alt = [] then none else some alt

/-- Object-level deprecation facts of one pass: the walk run over every file
in order with the closure state (cleared after the module-level scan)
persisting across files. -/
def objectDeprecations (files : List GoFile) : List (ObjId × List Char) :=
  (files.foldl (fun s f => inspectNodes s f.decls) (ExtState.mk [] [] [])).facts

/-- Knowledge table entry (honnef.co knowledge.Deprecation). -/
structure StdDep where
  DeprecatedSince : Int
  AlternativeAvailableSince : Int
deriving DecidableEq

/-- Sentinel for the policy that an API should never be used. -/
def DeprecatedNeverUse : Int := -1

/-- Sentinel for the policy that an API should no longer be used. -/
def DeprecatedUseNoLonger : Int := -2

/-- Embedding of IsGoVersion: the configured target version is at or above
the given minor version. -/
def IsGoVersion (version minor : Int) : Bool := decide (minor ≤ version)

/-- Apostrophe character as a string, used in one diagnostic wording. -/
def apos : String := String.singleton (Char.ofNat 39)

/-- The four diagnostic message shapes of checkDeprecated (main file,
lines 256-266), selected by the knowledge table entry. -/
def deprMessage (rendered msg : String) (std : Option StdDep) : String :=
  match std with
  | none => rendered ++ " is deprecated: " ++ msg
  | some std =>
    if std.AlternativeAvailableSince = DeprecatedNeverUse then
      rendered ++ " has been deprecated since Go 1." ++ toString std.DeprecatedSince
        ++ " because it shouldn" ++ apos ++ "t be used: " ++ msg
    else if std.AlternativeAvailableSince = std.DeprecatedSince
        ∨ std.AlternativeAvailableSince = DeprecatedUseNoLonger then
      rendered ++ " has been deprecated since Go 1." ++ toString std.DeprecatedSince
        ++ ": " ++ msg
    else
      rendered ++ " has been deprecated since Go 1." ++ toString std.DeprecatedSince
        ++ " and an alternative has been available since Go 1."
        ++ toString std.AlternativeAvailableSince ++ ": " ++ msg

/-- Version gate of checkDeprecated (main file, lines 214-246): the switch on
AlternativeAvailableSince followed by the repeated IsGoVersion check on
line 244.  The result is ok true to proceed toward reporting, ok false to
skip, and error for the panic on an unhandled negative sentinel. -/
def versionGate (version : Int) (std : StdDep) : Except String Bool :=
  if std.AlternativeAvailableSince = DeprecatedNeverUse then
    Except.ok (IsGoVersion version std.AlternativeAvailableSince)
  else if std.AlternativeAvailableSince = DeprecatedUseNoLonger then
    if IsGoVersion version std.DeprecatedSince = false then Except.ok false
    else Except.ok (IsGoVersion version std.AlternativeAvailableSince)
  else if std.AlternativeAvailableSince < 0 then
    Except.error ("unhandled case " ++ toString std.AlternativeAvailableSince)
  else
    if IsGoVersion version std.AlternativeAvailableSince = false then Except.ok false
    else Except.ok (IsGoVersion version std.AlternativeAvailableSince)

/-- Self-use exemption and report step (main file, lines 248-266): when the
innermost enclosing function is itself deprecated the report is suppressed,
otherwise the diagnostic message is produced. -/
def afterGate (objFacts : ObjId → Option String) (tfn : Option ObjId)
    (rendered msg : String) (std : Option StdDep) : Option String :=
  match tfn with
  | some t =>
    match objFacts t with
    | some _ => none
    | none => some (deprMessage rendered msg std)
  | none => some (deprMessage rendered msg std)

/-- Per-selector decision of checkDeprecated (main file, lines 205-268):
skip objects without a package, skip the pass package and its test
augmentation, skip objects without a fact, then gate by the knowledge table
and apply the self-use exemption.  The error case is the panic on an
unhandled sentinel in the version gate. -/
def checkSel (version : Int) (passPkgPath : String)
    (objFacts : ObjId → Option String)
    (stdTable : String → Option StdDep)
    (pkgOf : ObjId → Option String)
    (tfn : Option ObjId) (obj : ObjId) (selName rendered : String) :
    Except String (Option String) :=
  match pkgOf obj with
  | none => Except.ok none
  | some opath =>
    if passPkgPath = opath ∨ opath ++ "_test" = passPkgPath then Except.ok none
    else
      match objFacts obj with
      | none => Except.ok none
      | some msg =>
        match stdTable selName with
        | none => Except.ok (afterGate objFacts tfn rendered msg none)
        | some std =>
          match versionGate version std with
          | Except.error e => Except.error e
          | Except.ok false => Except.ok none
          | Except.ok true => Except.ok (afterGate objFacts tfn rendered msg (some std))

/-- Inputs of the selector pass that the driver resolves for the analyzer. -/
structure AnalyzerCtx where
  version : Int
  passPkgPath : String
  objFacts : ObjId → Option String
  stdTable : String → Option StdDep
  pkgOf : ObjId → Option String

/-- Syntax seen by the selector walk.  A selector node carries its resolved
object, its fully qualified access name (SelectorName) and its rendered
source text; every other node kind only contributes traversal structure,
because the walk closure returns true on every push. -/
inductive UNode where
  | file (children : List UNode)
  | funcDecl (name : ObjId) (children : List UNode)
  | sel (obj : ObjId) (selName : String) (rendered : String) (children : List UNode)
  | plain (children : List UNode)

/-- Embedding of the inspector Nodes walk of checkDeprecated (main file,
lines 186-270): the stack counter is the push depth, the innermost enclosing
function object tfn is reset exactly when a node is pushed at depth one and
overwritten at every function declaration, and its value persists across
pops, as the shared mutable variable does. -/
def walkNodes (ctx : AnalyzerCtx) (depth : Nat) (tfn : Option ObjId)
    (diags : List String) (ns : List UNode) :
    Except String (Option ObjId × List String) :=
  match ns with
  | [] => Except.ok (tfn, diags)
  | n :: rest =>
    let t0 := if depth + 1 = 1 then none else tfn
    match n with
    | UNode.file cs =>
      match walkNodes ctx (depth + 1) t0 diags cs with
      | Except.error e => Except.error e
      | Except.ok (t1, d1) => walkNodes ctx depth t1 d1 rest
    | UNode.plain cs =>
      match walkNodes ctx (depth + 1) t0 diags cs with
      | Except.error e => Except.error e
      | Except.ok (t1, d1) => walkNodes ctx depth t1 d1 rest
    | UNode.funcDecl name cs =>
      match walkNodes ctx (depth + 1) (some name) diags cs with
      | Except.error e => Except.error e
      | Except.ok (t1, d1) => walkNodes ctx depth t1 d1 rest
    | UNode.sel obj selName rendered cs =>
      match checkSel ctx.version ctx.passPkgPath ctx.objFacts ctx.stdTable ctx.pkgOf
          t0 obj selName rendered with
      | Except.error e => Except.error e
      | Except.ok od =>
        let d2 := match od with
          | some m => diags ++ [m]
          | none => diags
        match walkNodes ctx (depth + 1) t0 d2 cs with
        | Except.error e => Except.error e
        | Except.ok (t1, d1) => walkNodes ctx depth t1 d1 rest
termination_by sizeOf ns

/-- The selector pass over all files of the unit, started with depth zero,
no enclosing function and no diagnostics. -/
def checkDeprecatedSelectors (ctx : AnalyzerCtx) (files : List UNode) :
    Except String (List String) :=
  match walkNodes ctx 0 none [] files with
  | Except.error e => Except.error e
  | Except.ok r => Except.ok r.2

/-- Modelled from the spec: the per-file generator classification produced by
the Generated fact analyzer, whose source file facts/generated.go is not
under src.  The spec names protocol-buffer compiler output as the only
relevant classification value. -/
inductive Generator where
  | protocGenGo
  | otherGen
deriving DecidableEq

/-- One import declaration as fn2 receives it: the quoted path literal, the
resolved imported package identified by its path, and the file name of
the position used for the generator lookup. -/
structure ImportSpec where
  pathValue : String
  pkg : Nat
  fileName : String

/-- Embedding of fn2 (main file, lines 272-292): strip the surrounding
quotes of the path literal by slicing, look the imported package up in the
package fact map, and suppress the report exactly when the path is the
legacy protocol-buffer core package and the importing file is classified as
protocol-buffer compiler output. -/
def importDiag (pkgFacts : Nat → Option String) (generated : String → Option Generator)
    (spec : ImportSpec) : Option String :=
  let path := (spec.pathValue.drop 1).dropRight 1
  match pkgFacts spec.pkg with
  | none => none
  | some msg =>
    if path = "github.com/golang/protobuf/proto" then
      match generated spec.fileName with
      | some Generator.protocGenGo => none
      | _ => some ("package " ++ path ++ " is deprecated: " ++ msg)
    else some ("package " ++ path ++ " is deprecated: " ++ msg)

/-- The import pass: fn2 applied to every import spec in traversal order. -/
def importDiags (pkgFacts : Nat → Option String) (generated : String → Option Generator)
    (specs : List ImportSpec) : List String :=
  specs.filterMap (importDiag pkgFacts generated)

/-- Embedding of the import loop of run (main file, lines 117-128): each
path literal is unquoted and the first failure aborts the unit with the
error, before any further analysis; unquoting itself is the external
strconv.Unquote, taken as a parameter. -/
def runImports (unquote : String → Option String) : List String → Except String Unit
  | [] => Except.ok ()
  | p :: rest =>
    match unquote p with
    | none => Except.error p
    | some _ => runImports unquote rest

/-- Helper: every size of an optional doc group is at least one. -/
theorem sizeOf_optDoc_pos (o : Option DocText) : 1 ≤ sizeOf o := by
  cases o <;> simp

/-- Helper: every size of a node list is at least one. -/
theorem sizeOf_nodeList_pos (l : List Node) : 1 ≤ sizeOf l := by
  cases l with
  | nil => simp
  | cons a t => simp; omega

/-- Helper: membership in the facts of one doDocs contribution. -/
theorem mem_newFacts (p : ObjId × List Char) (names : List ObjId)
    (docs : List (Option DocText)) :
    p ∈ newFacts names docs ↔
      p.1 ∈ names ∧ p.2 = extractDeprecatedMessage docs ∧ extractDeprecatedMessage docs ≠ [] := by
  unfold newFacts
  by_cases h : extractDeprecatedMessage docs = []
  · simp [h]
  · cases p with
    | mk a b =>
      simp only [if_neg h, List.mem_map]
      constructor
      · rintro ⟨n, hn, he⟩
        cases he
        exact ⟨hn, rfl, h⟩
      · rintro ⟨ha, hb, _⟩
        exact ⟨a, ha, by rw [hb]⟩

/-- Helper: fieldsFacts only appends to the incoming facts. -/
theorem fieldsFacts_append (fields : List Field) :
    ∀ f, fieldsFacts f fields = f ++ fieldsFacts [] fields := by
  induction fields with
  | nil => intro f; simp [fieldsFacts]
  | cons fd rest ih =>
    intro f
    have h1 : fieldsFacts f (fd :: rest) = fieldsFacts (doDocs f fd.names [fd.doc]) rest := rfl
    have h2 : fieldsFacts [] (fd :: rest) = fieldsFacts (doDocs [] fd.names [fd.doc]) rest := rfl
    rw [h1, h2, ih (doDocs f fd.names [fd.doc]), ih (doDocs [] fd.names [fd.doc])]
    simp [doDocs]

/-- Helper: membership in the facts produced by a struct or interface body. -/
theorem mem_fieldsFacts (p : ObjId × List Char) (fields : List Field) :
    p ∈ fieldsFacts [] fields ↔
      ∃ fd ∈ fields, p.1 ∈ fd.names ∧ p.2 = extractDeprecatedMessage [fd.doc]
        ∧ extractDeprecatedMessage [fd.doc] ≠ [] := by
  induction fields with
  | nil => simp [fieldsFacts]
  | cons fd rest ih =>
    have hstep : fieldsFacts [] (fd :: rest) = newFacts fd.names [fd.doc] ++ fieldsFacts [] rest := by
      show fieldsFacts (doDocs [] fd.names [fd.doc]) rest = _
      rw [fieldsFacts_append rest (doDocs [] fd.names [fd.doc])]
      simp [doDocs]
    rw [hstep]
    simp only [List.mem_append, ih, mem_newFacts]
    constructor
    · rintro (h | ⟨fd2, h2, h3⟩)
      · exact ⟨fd, List.mem_cons_self fd rest, h⟩
      · exact ⟨fd2, List.mem_cons_of_mem fd h2, h3⟩
    · rintro ⟨fd2, h2, h3⟩
      rcases List.mem_cons.mp h2 with h | h
      · cases h; exact Or.inl h3
      · exact Or.inr ⟨fd2, h, h3⟩

/-- Helper: the flush step acts on the fact list only by appending. -/
theorem flush_shape (d : List (Option DocText)) (nm : List ObjId)
    (f : List (ObjId × List Char)) :
    flush (ExtState.mk d nm f)
      = ExtState.mk (flush (ExtState.mk d nm [])).docs (flush (ExtState.mk d nm [])).names
          (f ++ (flush (ExtState.mk d nm [])).facts) := by
  unfold flush
  by_cases h : nm = [] ∨ d = []
  · simp [h]
  · simp [h, doDocs]

/-- Helper: the flush step preserves the invariant that every exported fact
carries a nonempty message. -/
theorem flush_msgs (s : ExtState) (hs : ∀ p ∈ s.facts, p.2 ≠ []) :
    ∀ p ∈ (flush s).facts, p.2 ≠ [] := by
  unfold flush
  by_cases h : s.names = [] ∨ s.docs = []
  · simpa [h] using hs
  · simp only [h, if_false, doDocs]
    intro p hp
    rcases List.mem_append.mp hp with hp | hp
    · exact hs p hp
    · have hm := (mem_newFacts p s.names s.docs).mp hp
      rw [hm.2.1]; exact hm.2.2

/-- Helper: the struct and interface field step preserves the nonempty
message invariant. -/
theorem fieldsFacts_msgs (fields : List Field) (f : List (ObjId × List Char))
    (hf : ∀ p ∈ f, p.2 ≠ []) : ∀ p ∈ fieldsFacts f fields, p.2 ≠ [] := by
  intro p hp
  rw [fieldsFacts_append fields f] at hp
  rcases List.mem_append.mp hp with hp | hp
  · exact hf p hp
  · rcases (mem_fieldsFacts p fields).mp hp with ⟨fd, _, _, h2, h3⟩
    rw [h2]; exact h3

/-- Helper: every fact exported during the extractor walk carries a nonempty
message, provided the facts already present do. -/
theorem inspectNodes_msgs : ∀ k, ∀ ns : List Node, sizeOf ns ≤ k → ∀ s : ExtState,
    (∀ p ∈ s.facts, p.2 ≠ []) → ∀ p ∈ (inspectNodes s ns).facts, p.2 ≠ [] := by
  intro k
  induction k with
  | zero =>
    intro ns h
    exfalso
    have := sizeOf_nodeList_pos ns
    omega
  | succ k ih =>
    intro ns h s hs
    match ns with
    | [] => simpa [inspectNodes] using hs
    | Node.genDecl tok doc specs :: rest =>
      have hd := sizeOf_optDoc_pos doc
      have hsp := sizeOf_nodeList_pos specs
      have hrl := sizeOf_nodeList_pos rest
      simp only [List.cons.sizeOf_spec, Node.genDecl.sizeOf_spec] at h
      have hr : sizeOf rest ≤ k := by omega
      have hspecs : sizeOf specs ≤ k := by omega
      cases tok with
      | importTok => simp only [inspectNodes]; exact ih rest hr s hs
      | typeTok =>
        simp only [inspectNodes]
        exact ih rest hr _ (ih specs hspecs _ hs)
      | constTok =>
        simp only [inspectNodes]
        exact ih rest hr _ (ih specs hspecs _ hs)
      | varTok =>
        simp only [inspectNodes]
        exact ih rest hr _ (ih specs hspecs _ hs)
    | Node.funcDecl doc name :: rest =>
      have hd := sizeOf_optDoc_pos doc
      have hrl := sizeOf_nodeList_pos rest
      simp only [List.cons.sizeOf_spec, Node.funcDecl.sizeOf_spec] at h
      have hr : sizeOf rest ≤ k := by omega
      simp only [inspectNodes]
      exact ih rest hr _ (flush_msgs _ hs)
    | Node.typeSpec doc name ty :: rest =>
      have hd := sizeOf_optDoc_pos doc
      have hrl := sizeOf_nodeList_pos rest
      simp only [List.cons.sizeOf_spec, Node.typeSpec.sizeOf_spec] at h
      have hr : sizeOf rest ≤ k := by omega
      have hty : sizeOf ([ty] : List Node) ≤ k := by simp; omega
      simp only [inspectNodes]
      exact ih rest hr _ (ih [ty] hty _ (flush_msgs _ hs))
    | Node.valueSpec doc names :: rest =>
      have hd := sizeOf_optDoc_pos doc
      have hrl := sizeOf_nodeList_pos rest
      simp only [List.cons.sizeOf_spec, Node.valueSpec.sizeOf_spec] at h
      have hr : sizeOf rest ≤ k := by omega
      simp only [inspectNodes]
      exact ih rest hr _ (flush_msgs _ hs)
    | Node.structType fields :: rest =>
      have hrl := sizeOf_nodeList_pos rest
      simp only [List.cons.sizeOf_spec, Node.structType.sizeOf_spec] at h
      have hr : sizeOf rest ≤ k := by omega
      simp only [inspectNodes]
      exact ih rest hr _ (fieldsFacts_msgs fields s.facts hs)
    | Node.interfaceType methods :: rest =>
      have hrl := sizeOf_nodeList_pos rest
      simp only [List.cons.sizeOf_spec, Node.interfaceType.sizeOf_spec] at h
      have hr : sizeOf rest ≤ k := by omega
      simp only [inspectNodes]
      exact ih rest hr _ (fieldsFacts_msgs methods s.facts hs)
    | Node.other :: rest =>
      have hrl := sizeOf_nodeList_pos rest
      simp only [List.cons.sizeOf_spec, Node.other.sizeOf_spec] at h
      have hr : sizeOf rest ≤ k := by omega
      simp only [inspectNodes]
      exact ih rest hr s hs

/-- Helper: composition step for the append-shape property of the walk. -/
theorem shape_comp (ns : List Node)
    (h : ∀ d nm f, inspectNodes (ExtState.mk d nm f) ns
      = ExtState.mk (inspectNodes (ExtState.mk d nm []) ns).docs
          (inspectNodes (ExtState.mk d nm []) ns).names
          (f ++ (inspectNodes (ExtState.mk d nm []) ns).facts))
    (t : ExtState) (f0 : List (ObjId × List Char)) :
    inspectNodes (ExtState.mk t.docs t.names (f0 ++ t.facts)) ns
      = ExtState.mk (inspectNodes t ns).docs (inspectNodes t ns).names
          (f0 ++ (inspectNodes t ns).facts) := by
  have h2e : inspectNodes t ns
      = ExtState.mk (inspectNodes (ExtState.mk t.docs t.names []) ns).docs
          (inspectNodes (ExtState.mk t.docs t.names []) ns).names
          (t.facts ++ (inspectNodes (ExtState.mk t.docs t.names []) ns).facts) :=
    h t.docs t.names t.facts
  rw [h t.docs t.names (f0 ++ t.facts), h2e]
  simp

/-- Helper: the extractor walk acts on the fact collection only by
appending, and the buffers and appended facts do not depend on the facts
already collected. -/
theorem inspectNodes_shape : ∀ k, ∀ ns : List Node, sizeOf ns ≤ k →
    ∀ d nm f, inspectNodes (ExtState.mk d nm f) ns
      = ExtState.mk (inspectNodes (ExtState.mk d nm []) ns).docs
          (inspectNodes (ExtState.mk d nm []) ns).names
          (f ++ (inspectNodes (ExtState.mk d nm []) ns).facts) := by
  intro k
  induction k with
  | zero =>
    intro ns h
    exfalso
    have := sizeOf_nodeList_pos ns
    omega
  | succ k ih =>
    intro ns h d nm f
    match ns with
    | [] => simp [inspectNodes]
    | Node.genDecl tok doc specs :: rest =>
      have hd := sizeOf_optDoc_pos doc
      have hsp := sizeOf_nodeList_pos specs
      have hrl := sizeOf_nodeList_pos rest
      simp only [List.cons.sizeOf_spec, Node.genDecl.sizeOf_spec] at h
      have hr : sizeOf rest ≤ k := by omega
      have hspecs : sizeOf specs ≤ k := by omega
      cases tok with
      | importTok =>
        simp only [inspectNodes]
        exact ih rest hr d nm f
      | typeTok =>
        simp only [inspectNodes]
        rw [ih specs hspecs (d ++ [doc]) nm f]
        exact shape_comp rest (ih rest hr) _ f
      | constTok =>
        simp only [inspectNodes]
        rw [ih specs hspecs (d ++ [doc]) nm f]
        exact shape_comp rest (ih rest hr) _ f
      | varTok =>
        simp only [inspectNodes]
        rw [ih specs hspecs (d ++ [doc]) nm f]
        exact shape_comp rest (ih rest hr) _ f
    | Node.funcDecl doc name :: rest =>
      have hd := sizeOf_optDoc_pos doc
      have hrl := sizeOf_nodeList_pos rest
      simp only [List.cons.sizeOf_spec, Node.funcDecl.sizeOf_spec] at h
      have hr : sizeOf rest ≤ k := by omega
      simp only [inspectNodes]
      rw [flush_shape (d ++ [doc]) [name] f]
      exact shape_comp rest (ih rest hr) _ f
    | Node.typeSpec doc name ty :: rest =>
      have hd := sizeOf_optDoc_pos doc
      have hrl := sizeOf_nodeList_pos rest
      simp only [List.cons.sizeOf_spec, Node.typeSpec.sizeOf_spec] at h
      have hr : sizeOf rest ≤ k := by omega
      have hty : sizeOf ([ty] : List Node) ≤ k := by simp; omega
      simp only [inspectNodes]
      rw [flush_shape (d ++ [doc]) [name] f,
        shape_comp [ty] (ih [ty] hty) (flush (ExtState.mk (d ++ [doc]) [name] [])) f]
      exact shape_comp rest (ih rest hr) _ f
    | Node.valueSpec doc names :: rest =>
      have hd := sizeOf_optDoc_pos doc
      have hrl := sizeOf_nodeList_pos rest
      simp only [List.cons.sizeOf_spec, Node.valueSpec.sizeOf_spec] at h
      have hr : sizeOf rest ≤ k := by omega
      simp only [inspectNodes]
      rw [flush_shape (d ++ [doc]) names f]
      exact shape_comp rest (ih rest hr) _ f
    | Node.structType fields :: rest =>
      have hrl := sizeOf_nodeList_pos rest
      simp only [List.cons.sizeOf_spec, Node.structType.sizeOf_spec] at h
      have hr : sizeOf rest ≤ k := by omega
      simp only [inspectNodes]
      rw [fieldsFacts_append fields f]
      exact shape_comp rest (ih rest hr) (ExtState.mk d nm (fieldsFacts [] fields)) f
    | Node.interfaceType methods :: rest =>
      have hrl := sizeOf_nodeList_pos rest
      simp only [List.cons.sizeOf_spec, Node.interfaceType.sizeOf_spec] at h
      have hr : sizeOf rest ≤ k := by omega
      simp only [inspectNodes]
      rw [fieldsFacts_append methods f]
      exact shape_comp rest (ih rest hr) (ExtState.mk d nm (fieldsFacts [] methods)) f
    | Node.other :: rest =>
      have hrl := sizeOf_nodeList_pos rest
      simp only [List.cons.sizeOf_spec, Node.other.sizeOf_spec] at h
      have hr : sizeOf rest ≤ k := by omega
      simp only [inspectNodes]
      exact ih rest hr d nm f

/-- Claim C4: a member access that resolves to a symbol of the module being
analyzed, or whose declaring module is the one the current test augmentation
extends, is never reported, whatever facts exist for it. -/
theorem c4_no_self_flagging (version : Int) (passPkgPath opath selName rendered : String)
    (objFacts : ObjId → Option String) (stdTable : String → Option StdDep)
    (pkgOf : ObjId → Option String) (tfn : Option ObjId) (obj : ObjId)
    (hpkg : pkgOf obj = some opath)
    (hown : passPkgPath = opath ∨ opath ++ "_test" = passPkgPath) :
    checkSel version passPkgPath objFacts stdTable pkgOf tfn obj selName rendered
      = Except.ok none := by
  unfold checkSel
  rw [hpkg]
  simp [hown]

/-- Witness for claim C4 at a concrete input. -/
theorem c4_witness :
    checkSel 4 ("mypkg") (fun _ => some ("msg")) (fun _ => none)
      (fun _ => some ("mypkg")) none 5 ("p.X") ("p.X") = Except.ok none :=
  c4_no_self_flagging 4 ("mypkg") ("mypkg") ("p.X") ("p.X") (fun _ => some ("msg"))
    (fun _ => none) (fun _ => some ("mypkg")) none 5 rfl (Or.inl rfl)

/-- Claim C1: for an eligible foreign member access carrying a fact, the
three-way policy gates the report: a NeverUse entry always reports, a
UseNoLonger entry reports exactly when the target version reaches the
deprecation version, a SinceVersion entry reports exactly when the target
version reaches the alternative version, and without a knowledge table
entry the report always fires. -/
theorem c1_version_gating (version : Int) (passPkgPath opath selName rendered msg : String)
    (objFacts : ObjId → Option String) (stdTable : String → Option StdDep)
    (pkgOf : ObjId → Option String) (obj : ObjId)
    (hpkg : pkgOf obj = some opath)
    (h1 : ¬ passPkgPath = opath) (h2 : ¬ opath ++ "_test" = passPkgPath)
    (hfact : objFacts obj = some msg) (hver : 0 ≤ version) :
    (∀ std, stdTable selName = some std →
      std.AlternativeAvailableSince = DeprecatedNeverUse →
      checkSel version passPkgPath objFacts stdTable pkgOf none obj selName rendered
        = Except.ok (some (deprMessage rendered msg (some std))))
    ∧ (∀ std, stdTable selName = some std →
      std.AlternativeAvailableSince = DeprecatedUseNoLonger →
      (std.DeprecatedSince ≤ version →
        checkSel version passPkgPath objFacts stdTable pkgOf none obj selName rendered
          = Except.ok (some (deprMessage rendered msg (some std))))
      ∧ (version < std.DeprecatedSince →
        checkSel version passPkgPath objFacts stdTable pkgOf none obj selName rendered
          = Except.ok none))
    ∧ (∀ std, stdTable selName = some std →
      0 ≤ std.AlternativeAvailableSince →
      (std.AlternativeAvailableSince ≤ version →
        checkSel version passPkgPath objFacts stdTable pkgOf none obj selName rendered
          = Except.ok (some (deprMessage rendered msg (some std))))
      ∧ (version < std.AlternativeAvailableSince →
        checkSel version passPkgPath objFacts stdTable pkgOf none obj selName rendered
          = Except.ok none))
    ∧ (stdTable selName = none →
      checkSel version passPkgPath objFacts stdTable pkgOf none obj selName rendered
        = Except.ok (some (deprMessage rendered msg none))) := by
  refine ⟨?_, ?_, ?_, ?_⟩
  · intro std hstd ha
    have hm : DeprecatedNeverUse ≤ version := by
      unfold DeprecatedNeverUse; omega
    simp [checkSel, hpkg, h1, h2, hfact, hstd, versionGate, ha, afterGate, IsGoVersion, hm]
  · intro std hstd ha
    have hne : ¬ std.AlternativeAvailableSince = DeprecatedNeverUse := by
      rw [ha]; unfold DeprecatedNeverUse DeprecatedUseNoLonger; omega
    constructor
    · intro hd
      have hm : DeprecatedUseNoLonger ≤ version := by
        unfold DeprecatedUseNoLonger; omega
      simp [checkSel, hpkg, h1, h2, hfact, hstd, versionGate, ha, hne, afterGate,
        IsGoVersion, hm, hd]
    · intro hd
      have hm : ¬ std.DeprecatedSince ≤ version := by omega
      simp [checkSel, hpkg, h1, h2, hfact, hstd, versionGate, ha, hne, afterGate,
        IsGoVersion, hm, DeprecatedNeverUse, DeprecatedUseNoLonger]
  · intro std hstd ha
    have hne : ¬ std.AlternativeAvailableSince = DeprecatedNeverUse := by
      unfold DeprecatedNeverUse; omega
    have hne2 : ¬ std.AlternativeAvailableSince = DeprecatedUseNoLonger := by
      unfold DeprecatedUseNoLonger; omega
    have hnlt : ¬ std.AlternativeAvailableSince < 0 := by omega
    constructor
    · intro hd
      simp [checkSel, hpkg, h1, h2, hfact, hstd, versionGate, hne, hne2, hnlt, afterGate,
        IsGoVersion, hd]
    · intro hd
      have hm : ¬ std.AlternativeAvailableSince ≤ version := by omega
      simp [checkSel, hpkg, h1, h2, hfact, hstd, versionGate, hne, hne2, hnlt, afterGate,
        IsGoVersion, hm]
  · intro hstd
    simp [checkSel, hpkg, h1, h2, hfact, hstd, afterGate]

/-- Witness for claim C1 at a concrete input: a SinceVersion entry with
alternative version three and target version four reports. -/
theorem c1_witness :
    checkSel 4 ("mine") (fun _ => some ("use New")) (fun _ => some (StdDep.mk 6 3))
      (fun _ => some ("ext")) none 9 ("ext.X") ("ext.X")
      = Except.ok (some (deprMessage ("ext.X") ("use New") (some (StdDep.mk 6 3)))) :=
  ((c1_version_gating 4 ("mine") ("ext") ("ext.X") ("ext.X") ("use New")
      (fun _ => some ("use New")) (fun _ => some (StdDep.mk 6 3)) (fun _ => some ("ext")) 9
      rfl (by decide) (by decide) rfl (by decide)).2.2.1
    (StdDep.mk 6 3) rfl (by decide)).1 (by decide)

/-- Claim C3: a member access inside a function declaration whose own symbol
carries a fact is not reported, while the same access inside a function
without a fact is reported, all other conditions equal and eligible. -/
theorem c3_self_use_exemption (ctx : AnalyzerCtx) (f g obj : ObjId)
    (selName rendered opath msg fmsg : String)
    (hpkg : ctx.pkgOf obj = some opath)
    (h1 : ¬ ctx.passPkgPath = opath) (h2 : ¬ opath ++ "_test" = ctx.passPkgPath)
    (hobj : ctx.objFacts obj = some msg)
    (hstd : ctx.stdTable selName = none)
    (hf : ctx.objFacts f = some fmsg)
    (hg : ctx.objFacts g = none) :
    checkDeprecatedSelectors ctx
      [UNode.file [UNode.funcDecl f [UNode.sel obj selName rendered []]]]
      = Except.ok []
    ∧ checkDeprecatedSelectors ctx
      [UNode.file [UNode.funcDecl g [UNode.sel obj selName rendered []]]]
      = Except.ok [rendered ++ " is deprecated: " ++ msg] := by
  constructor
  · simp [checkDeprecatedSelectors, walkNodes, checkSel, afterGate, hpkg, h1, h2, hobj,
      hstd, hf]
  · simp [checkDeprecatedSelectors, walkNodes, checkSel, afterGate, hpkg, h1, h2, hobj,
      hstd, hg, deprMessage]

/-- Witness for claim C3 at a concrete input. -/
theorem c3_witness :
    checkDeprecatedSelectors
      (AnalyzerCtx.mk 4 ("mine")
        (fun o => if o = 1 then some ("old") else if o = 3 then some ("use New") else none)
        (fun _ => none) (fun o => if o = 3 then some ("ext") else none))
      [UNode.file [UNode.funcDecl 1 [UNode.sel 3 ("ext.X") ("ext.X") []]]]
      = Except.ok []
    ∧ checkDeprecatedSelectors
      (AnalyzerCtx.mk 4 ("mine")
        (fun o => if o = 1 then some ("old") else if o = 3 then some ("use New") else none)
        (fun _ => none) (fun o => if o = 3 then some ("ext") else none))
      [UNode.file [UNode.funcDecl 2 [UNode.sel 3 ("ext.X") ("ext.X") []]]]
      = Except.ok [("ext.X") ++ " is deprecated: " ++ ("use New")] :=
  c3_self_use_exemption
    (AnalyzerCtx.mk 4 ("mine")
      (fun o => if o = 1 then some ("old") else if o = 3 then some ("use New") else none)
      (fun _ => none) (fun o => if o = 3 then some ("ext") else none))
    1 2 3 ("ext.X") ("ext.X") ("ext") ("use New") ("old")
    rfl (by decide) (by decide) rfl rfl rfl rfl

/-- Claim C2: an import of a module carrying a package deprecation fact
produces exactly one diagnostic of the package form, except that it produces
none exactly when the imported path is the legacy protocol-buffer core
package and the importing file is classified as protocol-buffer compiler
output. -/
theorem c2_import_exemption (pkgFacts : Nat → Option String)
    (generated : String → Option Generator) (spec : ImportSpec) (msg : String)
    (hfact : pkgFacts spec.pkg = some msg) :
    (((spec.pathValue.drop 1).dropRight 1 = "github.com/golang/protobuf/proto"
        ∧ generated spec.fileName = some Generator.protocGenGo) →
      importDiags pkgFacts generated [spec] = [])
    ∧ (¬ ((spec.pathValue.drop 1).dropRight 1 = "github.com/golang/protobuf/proto"
        ∧ generated spec.fileName = some Generator.protocGenGo) →
      importDiags pkgFacts generated [spec]
        = [("package " ++ (spec.pathValue.drop 1).dropRight 1 ++ " is deprecated: " ++ msg)]) := by
  constructor
  · rintro ⟨hp, hg⟩
    simp [importDiags, importDiag, hfact, hp, hg]
  · intro h
    by_cases hp : (spec.pathValue.drop 1).dropRight 1 = "github.com/golang/protobuf/proto"
    · have hg : ¬ generated spec.fileName = some Generator.protocGenGo :=
        fun hg => h ⟨hp, hg⟩
      cases hgen : generated spec.fileName with
      | none => simp [importDiags, importDiag, hfact, hp, hgen]
      | some g =>
        cases g with
        | protocGenGo => exact absurd hgen hg
        | otherGen => simp [importDiags, importDiag, hfact, hp, hgen]
    · simp [importDiags, importDiag, hfact, hp]

/-- Witness for claim C2 at concrete inputs, covering the exempt direction. -/
theorem c2_witness :
    importDiags (fun _ => some ("use the new runtime")) (fun _ => some Generator.protocGenGo)
      [ImportSpec.mk ("\x22github.com/golang/protobuf/proto\x22") 7 ("a.pb.go")] = [] :=
  (c2_import_exemption (fun _ => some ("use the new runtime"))
    (fun _ => some Generator.protocGenGo)
    (ImportSpec.mk ("\x22github.com/golang/protobuf/proto\x22") 7 ("a.pb.go"))
    ("use the new runtime") rfl).1 (by constructor <;> decide)

/-- Claim C7: an unparseable import path literal is fatal for the unit in
the run entry point and yields no result, while missing optional data (no
fact, no knowledge table entry, no generator classification, no enclosing
function) never produces an error in the selector and import passes. -/
theorem c7_failure_semantics :
    (∀ (unquote : String → Option String) (ps : List String) (p : String),
      p ∈ ps → unquote p = none → ∃ e, runImports unquote ps = Except.error e)
    ∧ (∀ (version : Int) (passPkgPath selName rendered : String)
        (objFacts : ObjId → Option String) (stdTable : String → Option StdDep)
        (pkgOf : ObjId → Option String) (obj : ObjId),
      (∀ std, stdTable selName = some std →
        std.AlternativeAvailableSince = DeprecatedNeverUse
        ∨ std.AlternativeAvailableSince = DeprecatedUseNoLonger
        ∨ 0 ≤ std.AlternativeAvailableSince) →
      ∃ r, checkSel version passPkgPath objFacts stdTable pkgOf none obj selName rendered
        = Except.ok r)
    ∧ (∀ (pkgFacts : Nat → Option String) (spec : ImportSpec),
      importDiag pkgFacts (fun _ => none) spec = none
      ∨ ∃ m, importDiag pkgFacts (fun _ => none) spec = some m) := by
  refine ⟨?_, ?_, ?_⟩
  · intro unquote ps
    induction ps with
    | nil => intro p hp; simp at hp
    | cons q rest ih =>
      intro p hp hu
      by_cases hq : unquote q = none
      · exact ⟨q, by simp [runImports, hq]⟩
      · have hpr : p ∈ rest := by
          rcases List.mem_cons.mp hp with h | h
          · exact absurd (h ▸ hu) hq
          · exact h
        obtain ⟨e, he⟩ := ih p hpr hu
        refine ⟨e, ?_⟩
        cases hv : unquote q with
        | none => exact absurd hv hq
        | some v => simp [runImports, hv, he]
  · intro version passPkgPath selName rendered objFacts stdTable pkgOf obj hvalid
    cases hpk : pkgOf obj with
    | none => exact ⟨none, by simp [checkSel, hpk]⟩
    | some opath =>
      by_cases hown : passPkgPath = opath ∨ opath ++ "_test" = passPkgPath
      · exact ⟨none, by simp [checkSel, hpk, hown]⟩
      · cases hof : objFacts obj with
        | none => exact ⟨none, by simp [checkSel, hpk, hown, hof]⟩
        | some msg =>
          cases hstd : stdTable selName with
          | none =>
            refine ⟨afterGate objFacts none rendered msg none, ?_⟩
            simp [checkSel, hpk, hown, hof, hstd]
          | some std =>
            have hgate : ∃ b, versionGate version std = Except.ok b := by
              rcases hvalid std hstd with ha | ha | ha
              · refine ⟨IsGoVersion version std.AlternativeAvailableSince, ?_⟩
                simp [versionGate, ha]
              · have hne : ¬ std.AlternativeAvailableSince = DeprecatedNeverUse := by
                  rw [ha]; unfold DeprecatedNeverUse DeprecatedUseNoLonger; omega
                by_cases hiv : IsGoVersion version std.DeprecatedSince = false
                · exact ⟨false, by
                    simp [versionGate, hne, ha, hiv, DeprecatedNeverUse, DeprecatedUseNoLonger]⟩
                · refine ⟨IsGoVersion version std.AlternativeAvailableSince, ?_⟩
                  simp [versionGate, hne, ha, hiv, DeprecatedNeverUse, DeprecatedUseNoLonger]
              · have hne : ¬ std.AlternativeAvailableSince = DeprecatedNeverUse := by
                  unfold DeprecatedNeverUse; omega
                have hne2 : ¬ std.AlternativeAvailableSince = DeprecatedUseNoLonger := by
                  unfold DeprecatedUseNoLonger; omega
                have hnlt : ¬ std.AlternativeAvailableSince < 0 := by omega
                by_cases hiv : IsGoVersion version std.AlternativeAvailableSince = false
                · exact ⟨false, by simp [versionGate, hne, hne2, hnlt, hiv]⟩
                · refine ⟨IsGoVersion version std.AlternativeAvailableSince, ?_⟩
                  simp [versionGate, hne, hne2, hnlt, hiv]
            obtain ⟨b, hb⟩ := hgate
            cases b with
            | false => exact ⟨none, by simp [checkSel, hpk, hown, hof, hstd, hb]⟩
            | true =>
              refine ⟨afterGate objFacts none rendered msg (some std), ?_⟩
              simp [checkSel, hpk, hown, hof, hstd, hb]
  · intro pkgFacts spec
    cases hf : pkgFacts spec.pkg with
    | none => exact Or.inl (by simp [importDiag, hf])
    | some msg =>
      by_cases hp : (spec.pathValue.drop 1).dropRight 1 = "github.com/golang/protobuf/proto"
      · refine Or.inr ⟨("package " ++ (spec.pathValue.drop 1).dropRight 1
          ++ " is deprecated: " ++ msg), ?_⟩
        simp [importDiag, hf, hp]
      · refine Or.inr ⟨("package " ++ (spec.pathValue.drop 1).dropRight 1
          ++ " is deprecated: " ++ msg), ?_⟩
        simp [importDiag, hf, hp]

/-- Witness for claim C7 at concrete inputs. -/
theorem c7_witness :
    (∃ e, runImports (fun _ => none) [("\x22bad")] = Except.error e)
    ∧ (∃ r, checkSel 4 ("mine") (fun _ => none) (fun _ => none) (fun _ => some ("ext"))
        none 9 ("ext.X") ("ext.X") = Except.ok r)
    ∧ (importDiag (fun _ => some ("m")) (fun _ => none)
        (ImportSpec.mk ("\x22p\x22") 1 ("f.go")) = none
      ∨ ∃ m, importDiag (fun _ => some ("m")) (fun _ => none)
        (ImportSpec.mk ("\x22p\x22") 1 ("f.go")) = some m) :=
  ⟨c7_failure_semantics.1 (fun _ => none) [("\x22bad")] ("\x22bad") (by simp) rfl,
    c7_failure_semantics.2.1 4 ("mine") ("ext.X") ("ext.X") (fun _ => none) (fun _ => none)
      (fun _ => some ("ext")) 9 (fun std h => by simp at h),
    c7_failure_semantics.2.2 (fun _ => some ("m"))
      (ImportSpec.mk ("\x22p\x22") 1 ("f.go"))⟩

/-- Helper: when no paragraph starts with the marker, the scan yields
nothing. -/
theorem extractFromParts_none (parts : List (List Char))
    (h : ∀ part ∈ parts, deprecatedMarker.isPrefixOf part = false) :
    extractFromParts parts = none := by
  induction parts with
  | nil => rfl
  | cons p rest ih =>
    have hp := h p (List.mem_cons_self p rest)
    simp [extractFromParts, hp, ih (fun q hq => h q (List.mem_cons_of_mem p hq))]

/-- Helper: the per-file fold of the extractor walk preserves the nonempty
message invariant. -/
theorem foldl_inspect_msgs (files : List GoFile) :
    ∀ s : ExtState, (∀ p ∈ s.facts, p.2 ≠ []) →
      ∀ p ∈ (files.foldl (fun s f => inspectNodes s f.decls) s).facts, p.2 ≠ [] := by
  induction files with
  | nil => intro s hs; simpa using hs
  | cons f rest ih =>
    intro s hs
    simp only [List.foldl_cons]
    exact ih _ (inspectNodes_msgs (sizeOf f.decls) f.decls (le_refl _) s hs)

/-- Claim C5: the doc comment of the form given in the spec yields exactly
the text after the marker; a doc comment with no paragraph starting with the
marker yields no fact; an embedded newline in the matched paragraph is
replaced by a space. -/
theorem c5_doc_marker_extraction :
    extractDeprecatedMessage [some (("Foo does X.\n\nDeprecated: use Bar instead.").data)]
      = ("use Bar instead.").data
    ∧ (∀ text : DocText,
        (∀ part ∈ splitParagraphs text, deprecatedMarker.isPrefixOf part = false) →
        ∀ n : ObjId,
          (inspectNodes (ExtState.mk [] [] []) [Node.funcDecl (some text) n]).facts = [])
    ∧ extractDeprecatedMessage [some (("Deprecated: use\nBar instead.").data)]
      = ("use Bar instead.").data := by
  refine ⟨by decide, ?_, by decide⟩
  intro text h n
  have hx : extractDeprecatedMessage [some text] = [] := by
    simp [extractDeprecatedMessage, extractFromParts_none (splitParagraphs text) h]
  simp [inspectNodes, flush, doDocs, newFacts, hx]

/-- Witness for claim C5 at a concrete input without a marker. -/
theorem c5_witness :
    (inspectNodes (ExtState.mk [] [] [])
      [Node.funcDecl (some (("Nothing to see here.").data)) 4]).facts = [] :=
  c5_doc_marker_extraction.2.1 (("Nothing to see here.").data) (by decide) 4

/-- Claim C9: every object fact and every package fact the extractor records
carries a nonempty message, and a paragraph consisting of exactly the marker
blocks both later paragraphs and later comment groups from contributing. -/
theorem c9_nonempty_messages :
    (∀ files : List GoFile,
      ((objectDeprecations files).all (fun p => !p.2.isEmpty)) = true)
    ∧ (∀ files : List GoFile,
      ((packageDeprecation files).all (fun m => !m.isEmpty)) = true)
    ∧ extractDeprecatedMessage
        [some (("Deprecated: ").data), some (("Good.\n\nDeprecated: use Bar.").data)] = []
    ∧ extractDeprecatedMessage
        [some (("Deprecated: \n\nDeprecated: use Bar.").data)] = [] := by
  refine ⟨?_, ?_, by decide, by decide⟩
  · intro files
    rw [List.all_eq_true]
    intro p hp
    have hmem : p ∈ (files.foldl (fun s f => inspectNodes s f.decls)
        (ExtState.mk [] [] [])).facts := hp
    have hne := foldl_inspect_msgs files (ExtState.mk [] [] []) (by simp) p hmem
    cases hq : p.2 with
    | nil => exact absurd hq hne
    | cons a t => simp [hq]
  · intro files
    unfold packageDeprecation
    by_cases h : extractDeprecatedMessage (files.map (fun f => f.doc)) = []
    · simp [h]
    · simp only [h, if_false, Option.all]
      cases hq : extractDeprecatedMessage (files.map (fun f => f.doc)) with
      | nil => exact absurd hq h
      | cons a t => simp

/-- Claim C10: in a grouped declaration the group doc comment takes part in
extraction only for the first spec; the buffers are cleared after it, and
the facts of the remaining specs are computed from their own docs alone,
independent of the group doc. -/
theorem c10_group_doc_first_spec (tok : Tok) (htok : ¬ tok = Tok.importTok)
    (gdoc d : Option DocText) (ns : List ObjId) (hns : ¬ ns = [])
    (rest : List Node) (f : List (ObjId × List Char)) :
    (inspectNodes (ExtState.mk [] [] f)
        [Node.genDecl tok gdoc (Node.valueSpec d ns :: rest)]).facts
      = (f ++ newFacts ns [gdoc, d]) ++ (inspectNodes (ExtState.mk [] [] []) rest).facts
    ∧ (inspectNodes (ExtState.mk [gdoc] [] f) [Node.valueSpec d ns]).docs = []
    ∧ (inspectNodes (ExtState.mk [gdoc] [] f) [Node.valueSpec d ns]).names = [] := by
  refine ⟨?_, ?_, ?_⟩
  · have hmain : ∀ s0 : ExtState, s0 = ExtState.mk [] [] f →
        (inspectNodes (inspectNodes (ExtState.mk ([] ++ [gdoc]) [] f)
          (Node.valueSpec d ns :: rest)) []).facts
        = (f ++ newFacts ns [gdoc, d]) ++ (inspectNodes (ExtState.mk [] [] []) rest).facts := by
      intro s0 _
      have h1 : inspectNodes (ExtState.mk ([] ++ [gdoc]) [] f) (Node.valueSpec d ns :: rest)
          = inspectNodes (flush (ExtState.mk ([gdoc] ++ [d]) ns f)) rest := by
        simp [inspectNodes]
      have h2 : flush (ExtState.mk ([gdoc] ++ [d]) ns f)
          = ExtState.mk [] [] (f ++ newFacts ns [gdoc, d]) := by
        simp [flush, hns, doDocs]
      rw [h1, h2, inspectNodes_shape (sizeOf rest) rest (le_refl _) [] [] (f ++ newFacts ns [gdoc, d])]
      simp [inspectNodes]
    cases tok with
    | importTok => exact absurd rfl htok
    | typeTok => simpa [inspectNodes] using hmain (ExtState.mk [] [] f) rfl
    | constTok => simpa [inspectNodes] using hmain (ExtState.mk [] [] f) rfl
    | varTok => simpa [inspectNodes] using hmain (ExtState.mk [] [] f) rfl
  · simp [inspectNodes, flush, hns]
  · simp [inspectNodes, flush, hns]

/-- Witness for claim C10 at a concrete input. -/
theorem c10_witness :
    (inspectNodes (ExtState.mk [] [] [])
        [Node.genDecl Tok.varTok (some (("Deprecated: gone.").data))
          (Node.valueSpec none [7] :: [Node.valueSpec none [8]])]).facts
      = (([] ++ newFacts [7] [some (("Deprecated: gone.").data), none])
        ++ (inspectNodes (ExtState.mk [] [] []) [Node.valueSpec none [8]]).facts)
    ∧ (inspectNodes (ExtState.mk [some (("Deprecated: gone.").data)] [] [])
        [Node.valueSpec none [7]]).docs = []
    ∧ (inspectNodes (ExtState.mk [some (("Deprecated: gone.").data)] [] [])
        [Node.valueSpec none [7]]).names = [] :=
  c10_group_doc_first_spec Tok.varTok (by decide) (some (("Deprecated: gone.").data)) none
    [7] (by decide) [Node.valueSpec none [8]] []

/-- Claim C8: a struct type declaration whose accumulated type-level doc
carries no marker contributes no fact for the type symbol; the facts of the
struct body come from each field doc in isolation and bind only field
names. -/
theorem c8_field_isolation (gdoc tdoc : Option DocText) (tname : ObjId)
    (fields : List Field) (f0 : List (ObjId × List Char))
    (hnomark : extractDeprecatedMessage [gdoc, tdoc] = [])
    (hname : ∀ fd ∈ fields, ¬ tname ∈ fd.names) :
    (inspectNodes (ExtState.mk [] [] f0)
        [Node.genDecl Tok.typeTok gdoc
          [Node.typeSpec tdoc tname (Node.structType fields)]]).facts
      = f0 ++ fieldsFacts [] fields
    ∧ (∀ n m, (n, m) ∈ fieldsFacts [] fields ↔
        ∃ fd ∈ fields, n ∈ fd.names ∧ m = extractDeprecatedMessage [fd.doc]
          ∧ ¬ extractDeprecatedMessage [fd.doc] = [])
    ∧ (∀ m, ¬ (tname, m) ∈ fieldsFacts [] fields) := by
  refine ⟨?_, ?_, ?_⟩
  · simp [inspectNodes, flush, doDocs, newFacts, hnomark, fieldsFacts_append fields f0]
  · intro n m
    simpa using mem_fieldsFacts (n, m) fields
  · intro m hm
    rcases (mem_fieldsFacts (tname, m) fields).mp hm with ⟨fd, hfd, hn, _, _⟩
    exact hname fd hfd hn

/-- Witness for claim C8 at a concrete input with one deprecated field. -/
theorem c8_witness :
    (inspectNodes (ExtState.mk [] [] [])
        [Node.genDecl Tok.typeTok none
          [Node.typeSpec (some (("T is a type.").data)) 1
            (Node.structType [Field.mk [2] (some (("Deprecated: use other.").data))])]]).facts
      = [] ++ fieldsFacts [] [Field.mk [2] (some (("Deprecated: use other.").data))]
    ∧ (∀ n m, (n, m) ∈ fieldsFacts [] [Field.mk [2] (some (("Deprecated: use other.").data))] ↔
        ∃ fd ∈ [Field.mk [2] (some (("Deprecated: use other.").data))],
          n ∈ fd.names ∧ m = extractDeprecatedMessage [fd.doc]
            ∧ ¬ extractDeprecatedMessage [fd.doc] = [])
    ∧ (∀ m, ¬ (1, m) ∈ fieldsFacts [] [Field.mk [2] (some (("Deprecated: use other.").data))]) :=
  c8_field_isolation none (some (("T is a type.").data)) 1
    [Field.mk [2] (some (("Deprecated: use other.").data))] [] (by decide) (by decide)

/-- Claim C6 counterexample: an eligible top-level member access that
textually follows a deprecated function declaration in the same file is
suppressed by the self-use exemption, because the tracked function symbol is
only reset when a file node is pushed at depth one; the identical access
with no preceding function declaration produces the diagnostic. -/
theorem c6_counterexample :
    checkDeprecatedSelectors
      (AnalyzerCtx.mk 4 ("mine")
        (fun o => if o = 1 then some ("old") else if o = 2 then some ("use New") else none)
        (fun _ => none) (fun o => if o = 2 then some ("ext") else none))
      [UNode.file [UNode.funcDecl 1 [],
        UNode.plain [UNode.sel 2 ("ext.X") ("ext.X") []]]]
      = Except.ok []
    ∧ checkDeprecatedSelectors
      (AnalyzerCtx.mk 4 ("mine")
        (fun o => if o = 1 then some ("old") else if o = 2 then some ("use New") else none)
        (fun _ => none) (fun o => if o = 2 then some ("ext") else none))
      [UNode.file [UNode.plain [UNode.sel 2 ("ext.X") ("ext.X") []]]]
      = Except.ok [("ext.X is deprecated: use New")] := by
  constructor
  · simp [checkDeprecatedSelectors, walkNodes, checkSel, afterGate]
  · simp [checkDeprecatedSelectors, walkNodes, checkSel, afterGate, deprMessage]

/-- Claim C6 as amended: the tracked innermost-enclosing-function symbol is
reset exactly when the walk pushes a node at depth one, that is at the start
of each file; a top-level member access before any function declaration of
its file is therefore not suppressed, while one following a deprecated
function declaration in the same file retains that function as the tracked
symbol and is suppressed. -/
theorem c6_file_level_reset :
    (∀ (ctx : AnalyzerCtx) (t : Option ObjId) (ds : List String) (cs rest : List UNode),
      walkNodes ctx 0 t ds (UNode.file cs :: rest)
        = walkNodes ctx 0 none ds (UNode.file cs :: rest))
    ∧ (∀ (ctx : AnalyzerCtx) (obj f : ObjId) (selName rendered opath msg fmsg : String),
      ctx.pkgOf obj = some opath →
      ¬ ctx.passPkgPath = opath → ¬ opath ++ "_test" = ctx.passPkgPath →
      ctx.objFacts obj = some msg → ctx.stdTable selName = none →
      ctx.objFacts f = some fmsg →
      checkDeprecatedSelectors ctx
        [UNode.file [UNode.funcDecl f [], UNode.plain [UNode.sel obj selName rendered []]]]
        = Except.ok []
      ∧ checkDeprecatedSelectors ctx
        [UNode.file [UNode.plain [UNode.sel obj selName rendered []], UNode.funcDecl f []]]
        = Except.ok [rendered ++ " is deprecated: " ++ msg]) := by
  constructor
  · intro ctx t ds cs rest
    simp [walkNodes]
  · intro ctx obj f selName rendered opath msg fmsg hpkg h1 h2 hobj hstd hf
    constructor
    · simp [checkDeprecatedSelectors, walkNodes, checkSel, afterGate, hpkg, h1, h2, hobj,
        hstd, hf]
    · simp [checkDeprecatedSelectors, walkNodes, checkSel, afterGate, hpkg, h1, h2, hobj,
        hstd, hf, deprMessage]

/-- Witness for the amended claim C6 at a concrete input. -/
theorem c6_witness :
    checkDeprecatedSelectors
      (AnalyzerCtx.mk 4 ("mine")
        (fun o => if o = 1 then some ("gone") else if o = 3 then some ("use New") else none)
        (fun _ => none) (fun o => if o = 3 then some ("ext") else none))
      [UNode.file [UNode.funcDecl 1 [], UNode.plain [UNode.sel 3 ("ext.Y") ("ext.Y") []]]]
      = Except.ok []
    ∧ checkDeprecatedSelectors
      (AnalyzerCtx.mk 4 ("mine")
        (fun o => if o = 1 then some ("gone") else if o = 3 then some ("use New") else none)
        (fun _ => none) (fun o => if o = 3 then some ("ext") else none))
      [UNode.file [UNode.plain [UNode.sel 3 ("ext.Y") ("ext.Y") []], UNode.funcDecl 1 []]]
      = Except.ok [("ext.Y") ++ " is deprecated: " ++ ("use New")] :=
  c6_file_level_reset.2
    (AnalyzerCtx.mk 4 ("mine")
      (fun o => if o = 1 then some ("gone") else if o = 3 then some ("use New") else none)
      (fun _ => none) (fun o => if o = 3 then some ("ext") else none))
    3 1 ("ext.Y") ("ext.Y") ("ext") ("use New") ("gone")
    rfl (by decide) (by decide) rfl rfl rfl

end Protomigrate
